import Mathlib

/-!
Verification development for the Units repository (src/units.py), a Streamlit
unit/number-base/encoding toolbox.  The definitions below shallowly embed the
parts of `units.py` that the verified claims are about: the conversion pipeline
(`quantity_from_decimal` and pint's `convert`), the result formatter
(`format_result`), the session history (`add_history`), and the number-base
tool (`parse_base` and the `bin`/`oct`/`hex`-based renderings).

Machine numerics: `units.py` converts its Decimal input to a Python `float`
(IEEE-754 binary64) inside `quantity_from_decimal`, and pint stores the unit
factors parsed from `EXTRA_DEFS` as Python floats.  Exact rational values are
carried as explicit numerator/denominator pairs (`Frac`, denoting `n / d`),
and `toDouble` performs IEEE-754 round-to-nearest, ties-to-even at 53
significand bits.  Every value in this development is far inside the normal
range of binary64, so overflow and subnormals do not arise and are not
modeled.  `Frac.toRat` interprets a pair as a rational number; theorems state
properties of the interpreted values.
-/

namespace Units

/-- An explicit fraction `n / d`.  Used both for exact Decimal values and for
binary64 values (which are dyadic rationals). -/
structure Frac where
  n : ℤ
  d : ℤ
deriving DecidableEq

/-- The rational number a `Frac` denotes. -/
def Frac.toRat (x : Frac) : ℚ := (x.n : ℚ) / (x.d : ℚ)

/-- Floor logarithm base 2 on naturals, written with explicit fuel (the first
argument) so that it reduces by kernel computation. -/
def log2fuel : Nat → Nat → Nat
  | 0, _ => 0
  | f + 1, n => if n < 2 then 0 else log2fuel f (n / 2) + 1

/-- Floor logarithm base 2 (`natLog2 0 = 0`). -/
def natLog2 (n : Nat) : Nat := log2fuel n n

/-- Round `P / Q` (naturals) to the nearest natural, ties to even.  This is
the significand rounding of IEEE-754 round-to-nearest and also Python
`decimal`'s default `ROUND_HALF_EVEN` (restricted to nonnegative values). -/
def roundHEDiv (P Q : ℕ) : ℕ :=
  let q0 := P / Q
  let r := P % Q
  if 2 * r < Q then q0
  else if Q < 2 * r then q0 + 1
  else if q0 % 2 = 0 then q0 else q0 + 1

/-- Round `n / d` (integer over positive natural) to the nearest integer,
ties to even.  Round-half-to-even is symmetric under negation, so the negative
case delegates to the nonnegative one. -/
def rndHalfEven (n : ℤ) (d : ℕ) : ℤ :=
  if 0 ≤ n then (roundHEDiv n.toNat d : ℤ) else -(roundHEDiv n.natAbs d : ℤ)

/-- Decide `N / D < 2 ^ e` for positive naturals `N, D` and an integer `e`,
using only integer arithmetic. -/
def ltPow2 (N D : ℕ) (e : ℤ) : Bool :=
  if 0 ≤ e then N < D * 2 ^ e.toNat else N * 2 ^ (-e).toNat < D

/-- The exponent `e` with `2 ^ e ≤ N / D < 2 ^ (e + 1)`, for positive `N, D`:
first guess from the floor logarithms of `N` and `D`, then adjust. -/
def ilog2ND (N D : ℕ) : ℤ :=
  let e0 : ℤ := (natLog2 N : ℤ) - (natLog2 D : ℤ)
  if ltPow2 N D e0 then e0 - 1
  else if !ltPow2 N D (e0 + 1) then e0 + 1
  else e0

/-- The IEEE-754 binary64 value nearest to `x` (round-to-nearest,
ties-to-even, 53-bit significand; overflow and subnormals are outside the
modeled range).  This is the value Python's `float(x)` stores for a real
`x`. -/
def toDouble (x : Frac) : Frac :=
  if x.n = 0 then ⟨0, 1⟩
  else
    let N := x.n.natAbs
    let D := x.d.natAbs
    let neg : Bool := decide (x.n < 0) != decide (x.d < 0)
    let e : ℤ := ilog2ND N D
    let m : ℕ :=
      if 0 ≤ 52 - e then roundHEDiv (N * 2 ^ (52 - e).toNat) D
      else roundHEDiv N (D * 2 ^ (e - 52).toNat)
    let sm : ℤ := if neg then -(m : ℤ) else (m : ℤ)
    if 0 ≤ 52 - e then ⟨sm, (2 : ℤ) ^ (52 - e).toNat⟩
    else ⟨sm * 2 ^ (e - 52).toNat, 1⟩

/-- Python float multiplication: exact product, rounded to binary64. -/
def fmul (a b : Frac) : Frac := toDouble ⟨a.n * b.n, a.d * b.d⟩

/-- Python float division: exact quotient, rounded to binary64. -/
def fdiv (a b : Frac) : Frac := toDouble ⟨a.n * b.d, a.d * b.n⟩

/-- Embedding of `quantity_from_decimal` (units.py lines 236-247): the
Decimal value is rendered to a string, read by mpmath at 50 decimal digits
(about 169 bits), and then truncated to a Python float by
`float(value_float)`; the resulting magnitude is the binary64 value nearest
the input.  (For every input used in this development the composed double
rounding equals direct rounding to binary64.) -/
def quantity_from_decimal (value : Frac) : Frac := toDouble value

/-! ## Unit registry and conversion (units.py lines 33-121, 236-247, 296-321)

pint parses each `EXTRA_DEFS` line with plain Python floats, so every stored
scale is a binary64 value; the scale of a unit is its factor to the root unit
of its dimension (pint's defaults: `meter` for length, `gram` for mass,
`meter ** 3` reached through `liter = 1e-3 * m ** 3` for volume, and `byte`,
declared `byte = [information]` in `EXTRA_DEFS`, for digital storage).  Only
the units the claims touch are embedded; the full table is larger. -/

/-- A registry entry: dimension tag and the float scale to the root unit. -/
structure UnitDef where
  dim : String
  scale : Frac

/-- pint's stored factor for `liter` (`1e-3 * m ** 3`). -/
def liter_scale : Frac := toDouble ⟨1, 1000⟩

/-- pint's stored factor for `gallon_us = 3.785411784 * liter` (EXTRA_DEFS
line 50): the float literal times the liter factor, float-multiplied. -/
def gallon_us_scale : Frac := fmul (toDouble ⟨3785411784, 1000000000⟩) liter_scale

/-- The registry rows used by the claims (name, dimension, root-unit scale).
Integer scales (1024, 1048576, 1000000) are exact in binary64. -/
def registry : List (String × UnitDef) :=
  [("meter", ⟨"[length]", ⟨1, 1⟩⟩),
   ("kilogram", ⟨"[mass]", ⟨1000, 1⟩⟩),
   ("liter", ⟨"[length] ** 3", liter_scale⟩),
   ("gallon_us", ⟨"[length] ** 3", gallon_us_scale⟩),
   ("byte", ⟨"[information]", ⟨1, 1⟩⟩),
   ("KiB", ⟨"[information]", ⟨1024, 1⟩⟩),
   ("MiB", ⟨"[information]", ⟨1048576, 1⟩⟩),
   ("MB", ⟨"[information]", ⟨1000000, 1⟩⟩)]

/-- `ureg` lookup: `UndefinedUnitError` when a name has no entry. -/
def lookupUnit (name : String) : Option UnitDef :=
  (registry.find? (fun p => p.1 == name)).map (fun p => p.2)

/-- The spec's error taxonomy for `convert` (spec section 7); pint raises
`UndefinedUnitError` and `DimensionalityError`, which the handler catches. -/
inductive ConvError where
  | UndefinedUnit : ConvError
  | IncompatibleDimension : ConvError
deriving DecidableEq

/-- Python `x ** -1` on a float: the reciprocal, rounded to binary64. -/
def frecip (a : Frac) : Frac := toDouble ⟨a.d, a.n⟩

/-- pint `Quantity.to`: returns the magnitude unchanged when source and
destination units coincide (pint's `convert` short-circuits equal unit
containers; the same value would result from multiplying by the float factor
`scale ** 1 * scale ** -1` of the empty container, `1.0`); otherwise resolves
both units, requires equal dimensionality, and multiplies the magnitude by
the factor of the `src / dst` container, which pint computes by folding
`root_scale ** exponent` over the container's units in insertion order — the
source unit (exponent `1`) first, then the destination unit (exponent `-1`):
`factor = (1.0 * src_scale ** 1) * dst_scale ** -1`.  The initial `1.0 * x`
and `x ** 1` are exact in binary64, so the fold is one float power and one
float multiplication; every arithmetic step is binary64. -/
def pint_convert (value : Frac) (src dst : String) : Except ConvError Frac :=
  if src == dst then .ok value
  else
    match lookupUnit src, lookupUnit dst with
    | some us, some ud =>
        if us.dim == ud.dim then .ok (fmul value (fmul us.scale (frecip ud.scale)))
        else .error .IncompatibleDimension
    | _, _ => .error .UndefinedUnit

/-- The Unit Converter conversion (units.py lines 296-317): build the pint
quantity from the Decimal input (`quantity_from_decimal`, which floats it),
then convert with `q_from.to(to_unit)`. -/
def convert (value : Frac) (src dst : String) : Except ConvError Frac :=
  pint_convert (quantity_from_decimal value) src dst

/-! ## Session history (units.py lines 202-207, 310-317) -/

/-- `add_history` (units.py lines 205-207): insert at the front, then keep
only the first 500 entries (`st.session_state.history[:500]`). -/
def add_history {α : Type} (hist : List α) (obj : α) : List α :=
  (obj :: hist).take 500

/-- A history entry of the Unit Converter tool (the dict literal at units.py
lines 310-317; the formatted-string fields are kept as values here). -/
structure HistoryEntry where
  tool : String
  src : String
  dst : String
  value : Frac
  result : Frac
deriving DecidableEq

/-- The Unit Converter button handler (units.py lines 296-321): on success the
result is shown and a history entry is appended; every pint error is caught by
the surrounding `except`, an error message is shown, and history is not
touched. -/
def unit_handler (hist : List HistoryEntry) (value : Frac) (src dst : String) :
    List HistoryEntry × Option Frac :=
  match convert value src dst with
  | .ok r => (add_history hist ⟨"unit", src, dst, value, r⟩, some r)
  | .error _ => (hist, none)

/-! ## Digit rendering and parsing (shared by `format_result` and the
Number Bases tool) -/

/-- The character for a digit value below 16; `0`-`9` then uppercase `A`-`F`
(the code upper-cases its hex output). -/
def digitToChar (d : ℕ) : Char :=
  if d < 10 then Char.ofNat (48 + d) else Char.ofNat (55 + d)

/-- Little-endian base-`b` digits of `n`, with explicit fuel (first argument)
so that the definition reduces by kernel computation. -/
def digitsFuel : ℕ → ℕ → ℕ → List ℕ
  | 0, _, _ => []
  | f + 1, b, n => if n = 0 then [] else n % b :: digitsFuel f b (n / b)

/-- Little-endian base-`b` digits of `n` (empty for `n = 0`). -/
def natDigits (b n : ℕ) : List ℕ := digitsFuel n b n

/-- The base-`b` rendering of a natural, most significant digit first, as
Python's `str`/`bin`/`oct`/`hex` produce it for nonnegative arguments
(`"0"` for zero). -/
def renderNat (b n : ℕ) : List Char :=
  if n = 0 then ['0'] else ((natDigits b n).map digitToChar).reverse

/-- The numeric value of a digit character, as Python `int(s, base)` reads it:
`0`-`9`, `a`-`f`, `A`-`F`. -/
def charToDigit (c : Char) : Option ℕ :=
  if 48 ≤ c.toNat ∧ c.toNat ≤ 57 then some (c.toNat - 48)
  else if 97 ≤ c.toNat ∧ c.toNat ≤ 102 then some (c.toNat - 87)
  else if 65 ≤ c.toNat ∧ c.toNat ≤ 70 then some (c.toNat - 55)
  else none

/-- One step of `int(s, base)`: accumulate a digit, rejecting characters that
are not digits below the radix. -/
def stepDigit (r : ℕ) (acc : Option ℕ) (c : Char) : Option ℕ :=
  acc.bind fun a => (charToDigit c).bind fun dv =>
    if dv < r then some (a * r + dv) else none

/-- `int(s, base)` on an unsigned digit string: empty input is rejected,
otherwise a left fold over the digits. -/
def parseDigits (r : ℕ) (l : List Char) : Option ℕ :=
  match l with
  | [] => none
  | _ => l.foldl (stepDigit r) (some 0)

/-- `int(s, base)` with an optional sign.  (Python additionally accepts a
`0b`/`0o`/`0x` prefix matching the radix, underscores between digits, and
surrounding whitespace, none of which occur in the inputs considered here:
the handler strips the input before parsing.) -/
def parseInt (r : ℕ) (l : List Char) : Option ℤ :=
  match l with
  | [] => none
  | c :: rest =>
      if c = '-' then (parseDigits r rest).map (fun v => -(v : ℤ))
      else if c = '+' then (parseDigits r rest).map (fun v => (v : ℤ))
      else (parseDigits r l).map (fun v => (v : ℤ))

/-! ## Result formatter (units.py lines 250-267)

`format_result` is modeled for Decimal-valued inputs (the `isinstance(value,
Decimal)` branch), which is what every formatting claim exercises.  The
Decimal context is the default one with `getcontext().prec = 200` (units.py
line 16): `quantize` rounds with `ROUND_HALF_EVEN` and raises
`InvalidOperation` when the quantized coefficient would exceed 200 digits;
the first fallback formats `float(value)`, which raises `OverflowError` for
magnitudes at or beyond the binary64 overflow threshold; the second fallback
`str(value)` always succeeds. -/

/-- Decimal digit count of a natural (the length of a Decimal coefficient). -/
def digitCount10 (m : ℕ) : ℕ := (renderNat 10 m).length

/-- Left-pad a digit string with zeros to the given length. -/
def padLeft (l : List Char) (k : ℕ) : List Char :=
  List.replicate (k - l.length) '0' ++ l

/-- `format(quantized, 'f')` for the Decimal with coefficient `m` (signed) and
exponent `-p`: sign, integer digits, point, exactly `p` fractional digits. -/
def fixedString (m : ℤ) (p : ℕ) : List Char :=
  let ds := padLeft (renderNat 10 m.natAbs) (p + 1)
  (if m < 0 then ['-'] else []) ++ ds.take (ds.length - p) ++ '.' :: ds.drop (ds.length - p)

/-- Python `str.rstrip` with a single-character argument. -/
def rstrip (c : Char) (l : List Char) : List Char :=
  (l.reverse.dropWhile (fun x => x = c)).reverse

/-- The `.rstrip('0').rstrip('.')` applied to the fixed-point rendering. -/
def stripZeros (l : List Char) : List Char := rstrip '.' (rstrip '0' l)

/-- The signed numerator of `v` over the positive denominator `v.d.natAbs`
(a Decimal always denotes such a fraction). -/
def signedNum (v : Frac) : ℤ := if v.d < 0 then -v.n else v.n

/-- The quantized coefficient: `v * 10 ^ p` rounded half-to-even. -/
def quantCoeff (v : Frac) (p : ℕ) : ℤ :=
  rndHalfEven (signedNum v * 10 ^ p) v.d.natAbs

/-- The primary path of `format_result`: `dec_val.quantize(Decimal('0.' + '0'
* precision))` followed by `format(quantized, 'f').rstrip('0').rstrip('.')`;
fails (`InvalidOperation`) when the quantized coefficient exceeds the context
precision of 200 digits. -/
def format_primary (v : Frac) (p : ℕ) : Option (List Char) :=
  let m := quantCoeff v p
  if digitCount10 m.natAbs ≤ 200 then some (stripZeros (fixedString m p)) else none

/-- The first fallback: `f"{float(value):.{precision}f}".rstrip('0').rstrip('.')`.
`float(value)` overflows at the binary64 limit; the f-string rounds the double
half-to-even to `p` fractional digits. -/
def format_float (v : Frac) (p : ℕ) : Option (List Char) :=
  if v.n.natAbs < v.d.natAbs * 2 ^ 1024 then
    let dv := toDouble v
    some (stripZeros (fixedString (rndHalfEven (signedNum dv * 10 ^ p) dv.d.natAbs) p))
  else none

/-- The last fallback, `str(value)`, which never fails for a finite Decimal.
Its exact text depends on the Decimal's internal exponent, which a value-level
model does not track; only its totality and non-emptiness are relied on, and
this model renders the exact fraction. -/
def str_fallback (v : Frac) : List Char :=
  (if (decide (v.n < 0)) != (decide (v.d < 0)) then ['-'] else []) ++
    renderNat 10 v.n.natAbs ++
    (if v.d.natAbs = 1 then [] else '/' :: renderNat 10 v.d.natAbs)

/-- `format_result` (units.py lines 250-267) on a finite Decimal value. -/
def format_result (v : Frac) (p : ℕ) : String :=
  String.mk
    (match format_primary v p with
     | some s => s
     | none =>
         match format_float v p with
         | some s => s
         | none => str_fallback v)

/-! ## Number Bases tool (units.py lines 326-362) -/

/-- The four bases offered by the Number Bases tool. -/
inductive NumBase where
  | decimal : NumBase
  | binary : NumBase
  | octal : NumBase
  | hexadecimal : NumBase
deriving DecidableEq

/-- Radix of a base selection. -/
def NumBase.radix : NumBase → ℕ
  | .decimal => 10
  | .binary => 2
  | .octal => 8
  | .hexadecimal => 16

/-- `parse_base` (units.py lines 336-348): `int(s, radix)`, `None` on a
parse error. -/
def parse_base (s : String) (b : NumBase) : Option ℤ := parseInt b.radix s.data

/-- The output rendering (units.py lines 353-360): `str(n)` for decimal and
`bin(n)[2:]`, `oct(n)[2:]`, `hex(n)[2:].upper()` otherwise.  For negative `n`,
Python renders `-0b...`/`-0o...`/`-0x...`, so slicing off two characters
leaves a leading `b`/`o`/`x` (upper-cased to `X` for hex) and drops the
sign. -/
def pyOutput (b : NumBase) (n : ℤ) : List Char :=
  match b with
  | .decimal => if n < 0 then '-' :: renderNat 10 n.natAbs else renderNat 10 n.natAbs
  | .binary => if n < 0 then 'b' :: renderNat 2 n.natAbs else renderNat 2 n.natAbs
  | .octal => if n < 0 then 'o' :: renderNat 8 n.natAbs else renderNat 8 n.natAbs
  | .hexadecimal => if n < 0 then 'X' :: renderNat 16 n.natAbs else renderNat 16 n.natAbs

/-- The Number Bases convert button: parse the input in the source base
(`None` shows "Invalid input for selected base." and stops), then render in
the target base. -/
def number_base_tool (input : String) (bFrom bTo : NumBase) : Option String :=
  (parse_base input bFrom).map fun n => String.mk (pyOutput bTo n)

/-- Value of a little-endian digit list (for the round-trip proofs). -/
def ofDigitsNat (b : ℕ) : List ℕ → ℕ
  | [] => 0
  | d :: ds => d + b * ofDigitsNat b ds

/-! ## Lemmas about digits, parsing and rendering -/

theorem ofDigitsNat_digitsFuel (b : ℕ) (hb : 2 ≤ b) :
    ∀ fuel n, n ≤ fuel → ofDigitsNat b (digitsFuel fuel b n) = n := by
  intro fuel
  induction fuel with
  | zero =>
      intro n hn
      have : n = 0 := by omega
      subst this
      rfl
  | succ f ih =>
      intro n hn
      by_cases h0 : n = 0
      · subst h0; simp [digitsFuel, ofDigitsNat]
      · have hdiv : n / b ≤ f := by
          have := Nat.div_lt_self (Nat.pos_of_ne_zero h0) (by omega : 1 < b)
          omega
        simp only [digitsFuel, if_neg h0, ofDigitsNat]
        rw [ih _ hdiv]
        exact Nat.mod_add_div n b

theorem digitsFuel_lt (b : ℕ) (hb : 2 ≤ b) :
    ∀ fuel n d, d ∈ digitsFuel fuel b n → d < b := by
  intro fuel
  induction fuel with
  | zero => intro n d hd; simp [digitsFuel] at hd
  | succ f ih =>
      intro n d hd
      by_cases h0 : n = 0
      · subst h0; simp [digitsFuel] at hd
      · simp only [digitsFuel, if_neg h0, List.mem_cons] at hd
        rcases hd with h | h
        · subst h; exact Nat.mod_lt _ (by omega)
        · exact ih _ _ h

theorem natDigits_ne_nil (b n : ℕ) (h0 : n ≠ 0) : natDigits b n ≠ [] := by
  unfold natDigits
  cases n with
  | zero => exact absurd rfl h0
  | succ m => simp [digitsFuel]

theorem renderNat_ne_nil (b n : ℕ) : renderNat b n ≠ [] := by
  unfold renderNat
  by_cases h0 : n = 0
  · simp [h0]
  · have := natDigits_ne_nil b n h0
    simp [h0, this]

theorem charToDigit_digitToChar : ∀ d : Fin 16, charToDigit (digitToChar d.val) = some d.val := by
  decide

theorem digitToChar_not_special :
    ∀ d : Fin 16, digitToChar d.val ≠ '-' ∧ digitToChar d.val ≠ '+' ∧ digitToChar d.val ≠ '.' := by
  decide

theorem mem_renderNat (r n : ℕ) (h2 : 2 ≤ r) (h16 : r ≤ 16) (c : Char)
    (hc : c ∈ renderNat r n) : ∃ d : ℕ, d < 16 ∧ c = digitToChar d := by
  unfold renderNat at hc
  by_cases h0 : n = 0
  · simp [h0] at hc
    exact ⟨0, by omega, by simp [hc]; rfl⟩
  · simp only [if_neg h0, List.mem_reverse, List.mem_map] at hc
    obtain ⟨d, hd, rfl⟩ := hc
    exact ⟨d, lt_of_lt_of_le (digitsFuel_lt r h2 n n d hd) h16, rfl⟩

theorem foldl_stepDigit_none (r : ℕ) : ∀ l : List Char, List.foldl (stepDigit r) none l = none := by
  intro l
  induction l with
  | nil => rfl
  | cons c t ih =>
      have h : stepDigit r none c = none := rfl
      rw [List.foldl_cons, h]
      exact ih

theorem foldl_stepDigit (r : ℕ) (h16 : r ≤ 16) :
    ∀ ds : List ℕ, (∀ d ∈ ds, d < r) → ∀ a : ℕ,
      List.foldl (stepDigit r) (some a) ((ds.map digitToChar).reverse) =
        some (a * r ^ ds.length + ofDigitsNat r ds) := by
  intro ds
  induction ds with
  | nil => intro _ a; simp [ofDigitsNat]
  | cons d rest ih =>
      intro hlt a
      have hd : d < r := hlt d (by simp)
      have hd16 : d < 16 := lt_of_lt_of_le hd h16
      rw [List.map_cons, List.reverse_cons, List.foldl_append,
        ih (fun x hx => hlt x (by simp [hx])) a]
      have hq : charToDigit (digitToChar d) = some d := charToDigit_digitToChar ⟨d, hd16⟩
      simp only [List.foldl_cons, List.foldl_nil, stepDigit, Option.some_bind, hq, if_pos hd]
      congr 1
      simp only [List.length_cons, ofDigitsNat]
      ring

theorem parseDigits_renderNat (r n : ℕ) (h2 : 2 ≤ r) (h16 : r ≤ 16) :
    parseDigits r (renderNat r n) = some n := by
  by_cases h0 : n = 0
  · subst h0
    show parseDigits r ['0'] = some 0
    show List.foldl (stepDigit r) (some 0) ['0'] = some 0
    have hc : charToDigit '0' = some 0 := rfl
    simp only [List.foldl_cons, List.foldl_nil, stepDigit, Option.some_bind, hc,
      if_pos (by omega : 0 < r)]
    norm_num
  · have hnil := natDigits_ne_nil r n h0
    have hlist : ((natDigits r n).map digitToChar).reverse ≠ [] := by simpa using hnil
    obtain ⟨c, t, hct⟩ : ∃ c t, ((natDigits r n).map digitToChar).reverse = c :: t := by
      cases h : ((natDigits r n).map digitToChar).reverse with
      | nil => exact absurd h hlist
      | cons c t => exact ⟨c, t, rfl⟩
    have harm : parseDigits r (c :: t) = List.foldl (stepDigit r) (some 0) (c :: t) := rfl
    rw [renderNat, if_neg h0, hct, harm, ← hct,
      foldl_stepDigit r h16 (natDigits r n) (fun d hd => digitsFuel_lt r h2 n n d hd) 0]
    have hval : ofDigitsNat r (natDigits r n) = n := ofDigitsNat_digitsFuel r h2 n n le_rfl
    rw [hval]
    norm_num

theorem parse_base_pyOutput (b : NumBase) (n : ℕ) :
    parse_base (String.mk (pyOutput b (n : ℤ))) b = some (n : ℤ) := by
  have hneg : ¬ ((n : ℤ) < 0) := by omega
  have habs : (n : ℤ).natAbs = n := Int.natAbs_ofNat n
  have hrad2 : 2 ≤ b.radix := by cases b <;> simp [NumBase.radix]
  have hrad16 : b.radix ≤ 16 := by cases b <;> simp [NumBase.radix]
  have hout : pyOutput b (n : ℤ) = renderNat b.radix n := by
    cases b <;> simp [pyOutput, hneg, habs, NumBase.radix]
  have hnil := renderNat_ne_nil b.radix n
  obtain ⟨c, t, hct⟩ : ∃ c t, renderNat b.radix n = c :: t := by
    cases h : renderNat b.radix n with
    | nil => exact absurd h hnil
    | cons c t => exact ⟨c, t, rfl⟩
  have hcmem : c ∈ renderNat b.radix n := by rw [hct]; simp
  obtain ⟨d, hd16, hcd⟩ := mem_renderNat b.radix n hrad2 hrad16 c hcmem
  have hspec := digitToChar_not_special ⟨d, hd16⟩
  unfold parse_base
  show parseInt b.radix (pyOutput b (n : ℤ)) = some (n : ℤ)
  rw [hout, hct, parseInt, if_neg (by rw [hcd]; exact hspec.1), if_neg (by rw [hcd]; exact hspec.2.1),
    ← hct, parseDigits_renderNat b.radix n hrad2 hrad16]
  rfl

/-! ## Lemmas about rounding -/

theorem roundHEDiv_nearest (P Q : ℕ) (hQ : Q ≠ 0) :
    2 * ((roundHEDiv P Q : ℤ) * Q - P).natAbs ≤ Q ∧
      (2 * ((roundHEDiv P Q : ℤ) * Q - P).natAbs = Q → roundHEDiv P Q % 2 = 0) := by
  have hmod : Q * (P / Q) + P % Q = P := Nat.div_add_mod P Q
  have hlt : P % Q < Q := Nat.mod_lt _ (Nat.pos_of_ne_zero hQ)
  simp only [roundHEDiv]
  generalize hq : P / Q = q0 at hmod ⊢
  generalize hrr : P % Q = r at hmod hlt ⊢
  have hcast : (P : ℤ) = (Q : ℤ) * q0 + r := by exact_mod_cast hmod.symm
  have hdown : (q0 : ℤ) * Q - P = -(r : ℤ) := by rw [hcast]; ring
  have hup : ((q0 : ℤ) + 1) * Q - P = (Q : ℤ) - r := by rw [hcast]; ring
  split_ifs with h1 h2 h3 <;> push_cast <;>
    first
      | (rw [hdown]; constructor <;> omega)
      | (rw [hup]; constructor <;> omega)

theorem rndHalfEven_nearest (n : ℤ) (d : ℕ) (hd : d ≠ 0) :
    2 * (rndHalfEven n d * d - n).natAbs ≤ d ∧
      (2 * (rndHalfEven n d * d - n).natAbs = d → rndHalfEven n d % 2 = 0) := by
  unfold rndHalfEven
  split_ifs with h
  · have base := roundHEDiv_nearest n.toNat d hd
    have htn : (n.toNat : ℤ) = n := Int.toNat_of_nonneg h
    constructor
    · have := base.1; omega
    · intro he; have := base.2; omega
  · have base := roundHEDiv_nearest n.natAbs d hd
    have htn : (n.natAbs : ℤ) = -n := by omega
    rw [neg_mul]
    constructor
    · have := base.1; omega
    · intro he; have := base.2; omega

/-! ## Lemmas about the stripped fixed-point rendering -/

theorem rstrip_eq_rdropWhile (c : Char) (l : List Char) :
    rstrip c l = List.rdropWhile (fun x => x = c) l := rfl

theorem rstrip_all (c : Char) (l : List Char) (h : rstrip c l = []) : ∀ x ∈ l, x = c := by
  rw [rstrip_eq_rdropWhile] at h
  intro x hx
  have := List.rdropWhile_eq_nil_iff.mp h x hx
  simpa using this

theorem rstrip_ne_nil_of_mem (c x : Char) (l : List Char) (hx : x ∈ l) (hxc : x ≠ c) :
    rstrip c l ≠ [] := fun h => hxc (rstrip_all c l h x hx)

theorem stripZeros_cons_ne_nil (a : Char) (t : List Char) (ha : a ≠ '.')
    (hdot : '.' ∈ a :: t) : stripZeros (a :: t) ≠ [] := by
  intro hcon
  unfold stripZeros at hcon
  have h2 : rstrip '0' (a :: t) ≠ [] :=
    rstrip_ne_nil_of_mem '0' '.' (a :: t) hdot (by decide)
  have hpre : rstrip '0' (a :: t) <+: a :: t := by
    rw [rstrip_eq_rdropWhile]; exact List.rdropWhile_prefix _ _
  obtain ⟨s, hs⟩ := hpre
  have hall := rstrip_all '.' (rstrip '0' (a :: t)) hcon
  cases h : rstrip '0' (a :: t) with
  | nil => exact h2 h
  | cons b t2 =>
      rw [h] at hs hall
      have hb : b = a := by
        have := hs
        rw [List.cons_append] at this
        exact (List.cons.injEq _ _ _ _ ▸ this).1
      exact ha (hb ▸ hall b (by simp))

theorem mem_padLeft_renderNat (M k : ℕ) (c : Char)
    (hc : c ∈ padLeft (renderNat 10 M) k) : ∃ d : ℕ, d < 16 ∧ c = digitToChar d := by
  unfold padLeft at hc
  rw [List.mem_append] at hc
  rcases hc with h | h
  · have := List.eq_of_mem_replicate h
    exact ⟨0, by omega, by simp [this]; rfl⟩
  · exact mem_renderNat 10 M (by omega) (by omega) c h

theorem padLeft_length (l : List Char) (k : ℕ) : k ≤ (padLeft l k).length := by
  unfold padLeft
  rw [List.length_append, List.length_replicate]
  omega

theorem fixedString_shape (m : ℤ) (p : ℕ) :
    ∃ a t, fixedString m p = a :: t ∧ a ≠ '.' ∧ '.' ∈ a :: t := by
  unfold fixedString
  by_cases hm : m < 0
  · rw [if_pos hm]
    refine ⟨'-', _, rfl, by decide, ?_⟩
    simp
  · rw [if_neg hm]
    dsimp only
    rw [List.nil_append]
    have hlen : p + 1 ≤ (padLeft (renderNat 10 m.natAbs) (p + 1)).length :=
      padLeft_length _ _
    obtain ⟨d0, ds, hds⟩ : ∃ d0 ds, padLeft (renderNat 10 m.natAbs) (p + 1) = d0 :: ds := by
      cases h : padLeft (renderNat 10 m.natAbs) (p + 1) with
      | nil => rw [h] at hlen; simp at hlen
      | cons d0 ds => exact ⟨d0, ds, rfl⟩
    have hk : ∃ k, (padLeft (renderNat 10 m.natAbs) (p + 1)).length - p = k + 1 := by
      refine ⟨(padLeft (renderNat 10 m.natAbs) (p + 1)).length - p - 1, ?_⟩
      omega
    obtain ⟨k, hkk⟩ := hk
    rw [hds] at hkk ⊢
    rw [hkk, List.take_succ_cons, List.cons_append]
    obtain ⟨d, hd16, hcd⟩ := mem_padLeft_renderNat m.natAbs (p + 1) d0 (by rw [hds]; simp)
    refine ⟨d0, _, rfl, by rw [hcd]; exact (digitToChar_not_special ⟨d, hd16⟩).2.2, ?_⟩
    simp

theorem stripZeros_fixedString_ne_nil (m : ℤ) (p : ℕ) : stripZeros (fixedString m p) ≠ [] := by
  obtain ⟨a, t, hfs, ha, hdot⟩ := fixedString_shape m p
  rw [hfs]
  exact stripZeros_cons_ne_nil a t ha hdot

theorem str_fallback_ne_nil (v : Frac) : str_fallback v ≠ [] := by
  unfold str_fallback
  intro h
  rcases List.append_eq_nil.mp h with ⟨h1, h2⟩
  rcases List.append_eq_nil.mp h1 with ⟨_, h4⟩
  exact renderNat_ne_nil 10 v.n.natAbs h4

/-! ## Lemma about the bounded history -/

theorem foldl_add_history {α : Type} (es : List α) :
    List.foldl add_history [] es = es.reverse.take 500 := by
  induction es using List.reverseRecOn with
  | nil => rfl
  | append_singleton es e ih =>
      rw [List.foldl_append, List.foldl_cons, List.foldl_nil, ih]
      unfold add_history
      rw [List.reverse_append, List.reverse_singleton, List.singleton_append,
        List.take_succ_cons, List.take_succ_cons, List.take_take]
      norm_num

theorem format_primary_some (v : Frac) (p : ℕ) (s : List Char)
    (h : format_primary v p = some s) : s = stripZeros (fixedString (quantCoeff v p) p) := by
  unfold format_primary at h
  dsimp only at h
  split_ifs at h
  injection h with h
  exact h.symm

theorem format_float_some (v : Frac) (p : ℕ) (s : List Char)
    (h : format_float v p = some s) :
    s = stripZeros (fixedString (rndHalfEven (signedNum (toDouble v) * 10 ^ p)
      (toDouble v).d.natAbs) p) := by
  unfold format_float at h
  dsimp only at h
  split_ifs at h
  injection h with h
  exact h.symm

/-! ## The claims -/

set_option maxRecDepth 8000 in
/-- Claim C1 (code bug evaluation): the claim demands that `convert` work in
decimal arithmetic and return the exact decimal, with
`convert(1, "gallon_us", "liter") = 3.785411784` exactly.  The code instead
floats the Decimal inside `quantity_from_decimal` and pint folds its float
factors over the `gallon_us / liter` container, so the returned magnitude is
the binary64 double `8523989549933143 / 2^51` (one ulp above the double
nearest 3.785411784, because the fold multiplies by `0.001` and then by
`0.001 ** -1`), a dyadic rational that differs from the exact decimal. -/
theorem c1_convert_gallon_uses_floats :
    convert ⟨1, 1⟩ "gallon_us" "liter" = .ok ⟨8523989549933143, 2251799813685248⟩ ∧
    Frac.toRat ⟨8523989549933143, 2251799813685248⟩ = 8523989549933143 / 2 ^ 51 ∧
    Frac.toRat ⟨8523989549933143, 2251799813685248⟩ ≠ (3785411784 : ℚ) / 10 ^ 9 := by
  refine ⟨rfl, ?_, ?_⟩ <;> · unfold Frac.toRat
                             norm_num

set_option maxRecDepth 8000 in
/-- Claim C2 (counterexample): the claim says `convert(1024, "MiB", "MB")`
returns 1048.576; the code returns (the binary64 value nearest) 1073.741824,
since 1024 MiB = 2^30 bytes = 1073.741824 * 10^6 bytes. -/
theorem c2_mib_counterexample :
    (convert ⟨1024, 1⟩ "MiB" "MB").map Frac.toRat ≠ .ok ((1048576 : ℚ) / 1000) := by
  rw [show convert ⟨1024, 1⟩ "MiB" "MB" = .ok ⟨4722366482869645, 4398046511104⟩ from rfl]
  unfold Frac.toRat
  simp only [Except.map, Except.ok.injEq]
  norm_num

set_option maxRecDepth 8000 in
/-- Claim C2 (amended): `convert(1024, "MiB", "MB")` returns the binary64
value nearest 1073.741824 (the exact decimal 1073.741824 is not a binary64
value, so the float pipeline returns `4722366482869645 / 2^42`), and
`convert(1, "KiB", "byte")` returns 1024 exactly. -/
theorem c2_storage_conversions :
    convert ⟨1024, 1⟩ "MiB" "MB" = .ok (toDouble ⟨1073741824, 1000000⟩) ∧
    (toDouble ⟨1073741824, 1000000⟩).toRat = 4722366482869645 / 2 ^ 42 ∧
    (4722366482869645 : ℚ) / 2 ^ 42 ≠ (1073741824 : ℚ) / 10 ^ 6 ∧
    (convert ⟨1, 1⟩ "KiB" "byte").map Frac.toRat = .ok (1024 : ℚ) := by
  refine ⟨rfl, ?_, by norm_num, ?_⟩
  · rw [show toDouble ⟨1073741824, 1000000⟩ = ⟨4722366482869645, 4398046511104⟩ from by decide]
    unfold Frac.toRat
    norm_num
  · rw [show convert ⟨1, 1⟩ "KiB" "byte" = .ok ⟨4503599627370496, 4398046511104⟩ from rfl]
    unfold Frac.toRat
    simp only [Except.map, Except.ok.injEq]
    norm_num

/-- Claim C3 (counterexample): the claim says `format` rounds half away from
zero, so `format(Decimal("0.0005"), 3) = "0.001"`; the code quantizes with the
decimal default `ROUND_HALF_EVEN` and returns `"0"`. -/
theorem c3_half_away_counterexample : format_result ⟨5, 10000⟩ 3 ≠ "0.001" := by
  decide

/-- Claim C3 (amended): `format_result` rounds to `precision` decimal places
with the decimal context default round-half-to-even, then strips trailing
zeros and a trailing point: `format(Decimal("0.0005"), 3) = "0"`,
`format(Decimal("0.0015"), 3) = "0.002"`, `format(Decimal("0.0025"), 3) =
"0.002"`; and for every finite decimal value and precision the quantized
coefficient `m` is a nearest multiple of `10^-precision` (the scaled error
`|m * den - num * 10^p|` is at most half an ulp, and an exact half forces `m`
even). -/
theorem c3_format_rounding_half_even :
    format_result ⟨5, 10000⟩ 3 = "0" ∧
    format_result ⟨15, 10000⟩ 3 = "0.002" ∧
    format_result ⟨25, 10000⟩ 3 = "0.002" ∧
    ∀ (v : Frac) (p : ℕ), 3 ≤ p → p ≤ 60 → v.d ≠ 0 →
      2 * (quantCoeff v p * (v.d.natAbs : ℤ) - signedNum v * 10 ^ p).natAbs ≤ v.d.natAbs ∧
      (2 * (quantCoeff v p * (v.d.natAbs : ℤ) - signedNum v * 10 ^ p).natAbs = v.d.natAbs →
        quantCoeff v p % 2 = 0) := by
  refine ⟨by decide, by decide, by decide, ?_⟩
  intro v p _ _ hd
  exact rndHalfEven_nearest _ _ (Int.natAbs_ne_zero.mpr hd)

/-- Witness for the amended C3 at `v = 0.0015`, `p = 3`. -/
theorem c3_format_rounding_half_even_witness :
    ((3 : ℕ) ≤ 3 ∧ (3 : ℕ) ≤ 60 ∧ (10000 : ℤ) ≠ 0) ∧
      2 * (quantCoeff ⟨15, 10000⟩ 3 * ((10000 : ℤ).natAbs : ℤ) -
        signedNum ⟨15, 10000⟩ * 10 ^ 3).natAbs ≤ (10000 : ℤ).natAbs :=
  ⟨by decide,
    (c3_format_rounding_half_even.2.2.2 ⟨15, 10000⟩ 3 (by decide) (by decide) (by decide)).1⟩

set_option maxRecDepth 8000 in
/-- Claim C4 (code bug evaluation): the claim is the exact identity law
`convert(x, u, u) = x`.  pint returns the magnitude unchanged for identical
units, but `quantity_from_decimal` has already floated the Decimal input, so
the pipeline returns `float(x)`, which differs from `x` whenever `x` is not a
binary64 value — e.g. `x = 0.1` comes back as `7205759403792794 / 2^56`. -/
theorem c4_identity_violated :
    (∀ x : Frac, convert x "meter" "meter" = .ok (quantity_from_decimal x)) ∧
    convert ⟨1, 10⟩ "meter" "meter" = .ok ⟨7205759403792794, 72057594037927936⟩ ∧
    Frac.toRat ⟨7205759403792794, 72057594037927936⟩ ≠ Frac.toRat ⟨1, 10⟩ := by
  refine ⟨fun x => rfl, rfl, ?_⟩
  unfold Frac.toRat
  norm_num

/-- Claim C5: the history list is append-at-front and bounded at 500: the new
entry lands at index 0, the length never exceeds 500, and running 501
distinct operations from an empty session leaves exactly the 500 newest
entries, newest first, with the first (oldest) entry evicted. -/
theorem c5_history_bounded :
    (∀ (α : Type) (h : List α) (e : α), (add_history h e).head? = some e) ∧
    (∀ (α : Type) (h : List α) (e : α), (add_history h e).length ≤ 500) ∧
    (∀ (α : Type) (es : List α), es.Nodup → es.length = 501 →
      (List.foldl add_history [] es).length = 500 ∧
      List.foldl add_history [] es = es.reverse.take 500 ∧
      ∀ e0, es.head? = some e0 → e0 ∉ List.foldl add_history [] es) := by
  refine ⟨?_, ?_, ?_⟩
  · intro α h e
    show (((e :: h).take (499 + 1)).head?) = some e
    rw [List.take_succ_cons]
    rfl
  · intro α h e
    simp only [add_history, List.length_take]
    omega
  · intro α es hnod hlen
    have hfold := foldl_add_history es
    refine ⟨?_, hfold, ?_⟩
    · rw [hfold]
      simp only [List.length_take, List.length_reverse]
      omega
    · intro e0 he0
      cases es with
      | nil => simp at he0
      | cons a t =>
          simp only [List.head?_cons, Option.some.injEq] at he0
          subst he0
          rw [hfold, List.reverse_cons]
          have h500 : (500 : ℕ) = t.reverse.length := by
            simp only [List.length_reverse]
            simp only [List.length_cons] at hlen
            omega
          rw [h500, List.take_left]
          rw [List.mem_reverse]
          exact (List.nodup_cons.mp hnod).1

set_option maxRecDepth 4000 in
/-- Witness for C5: 501 distinct entries, starting from an empty history. -/
theorem c5_history_bounded_witness :
    (List.range 501).Nodup ∧ (List.range 501).length = 501 ∧
      (List.foldl add_history ([] : List ℕ) (List.range 501)).length = 500 ∧
      0 ∉ List.foldl add_history ([] : List ℕ) (List.range 501) := by
  have hnod : (List.range 501).Nodup := List.nodup_range 501
  have hlen : (List.range 501).length = 501 := List.length_range 501
  refine ⟨hnod, hlen, (c5_history_bounded.2.2 ℕ (List.range 501) hnod hlen).1,
    (c5_history_bounded.2.2 ℕ (List.range 501) hnod hlen).2.2 0 ?_⟩
  rfl

/-- Claim C6: converting between mismatched dimensions (meter to kilogram)
fails with `IncompatibleDimension` (pint's `DimensionalityError`, caught and
shown as an error message), and the handler leaves the history list
unchanged. -/
theorem c6_incompatible_dimension_no_history :
    ∀ (x : Frac) (hist : List HistoryEntry),
      convert x "meter" "kilogram" = .error ConvError.IncompatibleDimension ∧
      unit_handler hist x "meter" "kilogram" = (hist, none) := by
  intro x hist
  exact ⟨rfl, rfl⟩

/-- Claim C7: for every nonnegative integer and every pair of bases among
binary, octal, decimal and hexadecimal, converting the base-`b1` rendering of
`n` to base `b2` with the Number Bases tool and converting the result back
yields the base-`b1` rendering of `n` again (hence the value `n`). -/
theorem c7_number_base_round_trip :
    ∀ (n : ℕ) (b1 b2 : NumBase),
      number_base_tool (String.mk (pyOutput b1 (n : ℤ))) b1 b2 =
        some (String.mk (pyOutput b2 (n : ℤ))) ∧
      number_base_tool (String.mk (pyOutput b2 (n : ℤ))) b2 b1 =
        some (String.mk (pyOutput b1 (n : ℤ))) := by
  intro n b1 b2
  constructor <;> · unfold number_base_tool
                    rw [parse_base_pyOutput]
                    rfl

/-- Claim C8: `format(Decimal("1.100000"), 3) = "1.1"` and
`format(Decimal("2.000"), 3) = "2"`. -/
theorem c8_format_examples :
    format_result ⟨11, 10⟩ 3 = "1.1" ∧ format_result ⟨2, 1⟩ 3 = "2" :=
  ⟨by decide, by decide⟩

/-- Claim C9: for every finite decimal value and precision in the
slider-enforced range 3..60, `format_result` returns a (non-empty) string:
the quantize path, the float-formatting fallback and the `str(value)`
fallback together cover every input, so no exception escapes. -/
theorem c9_format_never_throws :
    ∀ (v : Frac) (p : ℕ), 3 ≤ p → p ≤ 60 → format_result v p ≠ "" := by
  intro v p _ _ hcon
  have hl : (match format_primary v p with
      | some s => s
      | none =>
          match format_float v p with
          | some s => s
          | none => str_fallback v) = [] := by
    have := congrArg String.data hcon
    simpa [format_result] using this
  cases hp : format_primary v p with
  | some s =>
      rw [hp] at hl
      rw [format_primary_some v p s hp] at hl
      exact stripZeros_fixedString_ne_nil _ _ hl
  | none =>
      rw [hp] at hl
      cases hf : format_float v p with
      | some s =>
          rw [hf] at hl
          rw [format_float_some v p s hf] at hl
          exact stripZeros_fixedString_ne_nil _ _ hl
      | none =>
          rw [hf] at hl
          exact str_fallback_ne_nil v hl

/-- Witness for C9 at `v = 0.5`, `p = 3`. -/
theorem c9_format_never_throws_witness :
    ((3 : ℕ) ≤ 3 ∧ (3 : ℕ) ≤ 60) ∧ format_result ⟨1, 2⟩ 3 ≠ "" :=
  ⟨by decide, c9_format_never_throws ⟨1, 2⟩ 3 (by decide) (by decide)⟩

/-- Claim C10: the Number Bases tool parses negative decimal input (a leading
minus sign), but for a negative value the binary, octal and hexadecimal
outputs come from slicing two characters off Python's signed rendering, so
they start with the letter `b`/`o`/`X`, lose the sign, and are rejected when
fed back to the tool in the target base: the round trip fails for every
negative decimal input and non-decimal target base. -/
theorem c10_negative_base_outputs :
    ∀ n : ℤ, n < 0 →
      parse_base (String.mk (pyOutput NumBase.decimal n)) NumBase.decimal = some n ∧
      (∃ t, pyOutput NumBase.binary n = 'b' :: t) ∧
      parse_base (String.mk (pyOutput NumBase.binary n)) NumBase.binary = none ∧
      (∃ t, pyOutput NumBase.octal n = 'o' :: t) ∧
      parse_base (String.mk (pyOutput NumBase.octal n)) NumBase.octal = none ∧
      (∃ t, pyOutput NumBase.hexadecimal n = 'X' :: t) ∧
      parse_base (String.mk (pyOutput NumBase.hexadecimal n)) NumBase.hexadecimal = none := by
  intro n hn
  refine ⟨?_, ⟨renderNat 2 n.natAbs, by simp [pyOutput, hn]⟩, ?_,
    ⟨renderNat 8 n.natAbs, by simp [pyOutput, hn]⟩, ?_,
    ⟨renderNat 16 n.natAbs, by simp [pyOutput, hn]⟩, ?_⟩
  · show parseInt 10 (pyOutput NumBase.decimal n) = some n
    rw [show pyOutput NumBase.decimal n = '-' :: renderNat 10 n.natAbs from by
      simp [pyOutput, hn]]
    show (parseDigits 10 (renderNat 10 n.natAbs)).map (fun v => -(v : ℤ)) = some n
    rw [parseDigits_renderNat 10 n.natAbs (by omega) (by omega)]
    have hval : -((n.natAbs : ℤ)) = n := by omega
    show some (-((n.natAbs : ℤ))) = some n
    rw [hval]
  · show parseInt 2 (pyOutput NumBase.binary n) = none
    rw [show pyOutput NumBase.binary n = 'b' :: renderNat 2 n.natAbs from by
      simp [pyOutput, hn]]
    show (List.foldl (stepDigit 2) (some 0) ('b' :: renderNat 2 n.natAbs)).map
      (fun v => (v : ℤ)) = none
    rw [List.foldl_cons, show stepDigit 2 (some 0) 'b' = none from rfl, foldl_stepDigit_none]
    rfl
  · show parseInt 8 (pyOutput NumBase.octal n) = none
    rw [show pyOutput NumBase.octal n = 'o' :: renderNat 8 n.natAbs from by
      simp [pyOutput, hn]]
    show (List.foldl (stepDigit 8) (some 0) ('o' :: renderNat 8 n.natAbs)).map
      (fun v => (v : ℤ)) = none
    rw [List.foldl_cons, show stepDigit 8 (some 0) 'o' = none from rfl, foldl_stepDigit_none]
    rfl
  · show parseInt 16 (pyOutput NumBase.hexadecimal n) = none
    rw [show pyOutput NumBase.hexadecimal n = 'X' :: renderNat 16 n.natAbs from by
      simp [pyOutput, hn]]
    show (List.foldl (stepDigit 16) (some 0) ('X' :: renderNat 16 n.natAbs)).map
      (fun v => (v : ℤ)) = none
    rw [List.foldl_cons, show stepDigit 16 (some 0) 'X' = none from rfl, foldl_stepDigit_none]
    rfl

/-- Witness for C10 at `n = -42`. -/
theorem c10_negative_base_outputs_witness :
    ((-42 : ℤ) < 0) ∧
      parse_base (String.mk (pyOutput NumBase.decimal (-42))) NumBase.decimal = some (-42) ∧
      parse_base (String.mk (pyOutput NumBase.binary (-42))) NumBase.binary = none :=
  ⟨by decide, (c10_negative_base_outputs (-42) (by decide)).1,
    (c10_negative_base_outputs (-42) (by decide)).2.2.1⟩

end Units

